import Mathlib

/-!
# Verification of the rollup TypeScript plugin

A shallow embedding of the plugin's three source generations
(`src/index.ts`, the newest generation in `src/unnamed/part_000`, and the
oldest in `src/unnamed/part_001`) together with proofs about the claims of
the specification.

External libraries (node `path`, node `fs`, the TypeScript compiler API,
`glob`, rollup's hook machinery) are modelled as follows: pure library
functions with documented semantics (`path.extname`, `path.dirname`,
`path.resolve`, `path.join`, `getLineAndCharacterOfPosition`,
`flattenDiagnosticMessageText`) are given executable Lean models faithful
to their documented behaviour; effectful or opaque calls (`fs.readFile`,
`fs.access`, `glob`, `ts.parseConfigFileTextToJson`,
`ts.parseJsonConfigFileContent`, `ts.convertCompilerOptionsFromJson`,
`ts.createProgram`, `ts.getPreEmitDiagnostics`, `ts.transpileModule`) are
parameters of an environment record, so every theorem quantifies over
their possible outcomes.
-/

/-! ## POSIX path model (node `path`, as used by the plugin)

The plugin runs `path` in POSIX mode on absolute rollup ids.  `pathResolve`
elides the prepending of `process.cwd()` for relative bases (rollup hands
the plugin absolute importer ids); everything else follows node's
documented behaviour.  Components consisting only of dots are treated as
extensionless, matching node on `'.'`, `'..'` and `'.bashrc'`. -/

/-- Split a character list at every occurrence of a separator character
(the semantics of `String.splitOn` with a one-character separator). -/
def splitOnChar (c : Char) : List Char → List (List Char)
  | [] => [[]]
  | x :: xs =>
    let r := splitOnChar c xs
    if x = c then [] :: r
    else
      match r with
      | [] => [[x]]
      | y :: ys => (x :: y) :: ys

/-- `String.splitOn` with a one-character separator. -/
def strSplit (c : Char) (s : String) : List String :=
  (splitOnChar c s.toList).map String.mk

/-- Whether a path is absolute (`p.startsWith "/"`). -/
def startsWithSlash (s : String) : Bool :=
  match s.toList with
  | '/' :: _ => true
  | _ => false

/-- Last path component (node `path.basename`, modulo trailing-slash
trimming which never arises for file ids). -/
def basename (p : String) : String :=
  (strSplit '/' p).getLastD p

/-- Model of node `path.extname`: the suffix of the basename starting at
its last dot, or `""` when the basename has no dot, or when everything
before that dot is itself dots (`'.bashrc'`, `'..'`). -/
def extname (p : String) : String :=
  let b := basename p
  let parts := strSplit '.' b
  match parts with
  | [] => ""
  | [_] => ""
  | _ =>
    let last := parts.getLastD ""
    let stem := b.dropRight (last.length + 1)
    if stem.toList.all (fun c => c == '.') then "" else "." ++ last

/-- Model of node `path.dirname`: everything before the last component,
`"."` when there is no separator, `"/"` for a root-level entry. -/
def dirname (p : String) : String :=
  let parts := strSplit '/' p
  match parts with
  | [] => "."
  | [_] => "."
  | _ =>
    let front := parts.dropLast
    if front.all (fun s => s == "") then "/"
    else String.intercalate "/" front

/-- Path normalization: drops empty and `.` segments and cancels `..`
against a preceding segment.  `absolute` decides whether a leading `..`
is dropped (normalizing above the root) or kept. -/
def normSegs (absolute : Bool) : List String → List String → List String
  | [], acc => acc.reverse
  | s :: rest, acc =>
    if s = "" ∨ s = "." then normSegs absolute rest acc
    else if s = ".." then
      match acc with
      | [] => if absolute then normSegs absolute rest [] else normSegs absolute rest [".."]
      | t :: tail => if t = ".." then normSegs absolute rest (".." :: t :: tail)
                     else normSegs absolute rest tail
    else normSegs absolute rest (s :: acc)

/-- Model of node `path.normalize` (POSIX). -/
def pathNormalize (p : String) : String :=
  if startsWithSlash p then
    "/" ++ String.intercalate "/" (normSegs true (strSplit '/' p) [])
  else
    let segs := normSegs false (strSplit '/' p) []
    if segs = [] then "." else String.intercalate "/" segs

/-- Model of node `path.resolve dir file` (two arguments, POSIX): the
second argument wins when absolute, otherwise it is joined onto the first
and the result normalized.  The `process.cwd()` prefix for a relative
`dir` is elided: rollup importer ids are absolute. -/
def pathResolve (dir file : String) : String :=
  if startsWithSlash file then pathNormalize file
  else pathNormalize (dir ++ "/" ++ file)

/-- Model of node `path.join a b` (POSIX). -/
def pathJoin (a b : String) : String :=
  if a = "" then (if b = "" then "." else pathNormalize b)
  else if b = "" then pathNormalize a
  else pathNormalize (a ++ "/" ++ b)

/-! ## Diagnostics (the TypeScript compiler API surface the plugin touches) -/

/-- `ts.DiagnosticCategory`. -/
inductive DiagnosticCategory where
  | Warning
  | Error
  | Suggestion
  | Message
deriving DecidableEq, Repr

/-- `diagnostic.messageText`: a string or a `DiagnosticMessageChain`.
The plugin never inspects the chain itself — it only hands it to the
external flattener — so nested chains are modelled one level deep, each
tail already flattened to a string. -/
inductive MessageText where
  | str (s : String)
  | chain (messageText : String) (next : List String)
deriving DecidableEq, Repr

/-- Model of `ts.flattenDiagnosticMessageText`, joining a chain with the
platform line separator (modelled as `"\n"`). -/
def flattenMessageText : MessageText → String
  | .str s => s
  | .chain s next => s ++ String.join (next.map (fun t => "\n" ++ t))

/-- The two fields of `ts.SourceFile` the plugin reads. -/
structure SourceFile where
  fileName : String
  text : String
deriving DecidableEq, Repr

/-- `ts.Diagnostic`, restricted to the fields the plugin reads. -/
structure Diagnostic where
  messageText : MessageText
  category : DiagnosticCategory
  file : Option SourceFile := none
  start : Option Nat := none
deriving DecidableEq, Repr

/-- Accumulator pass behind `getLineAndCharacterOfPosition`: walk the
prefix of the text, starting a new line at each newline character. -/
def lineCharAux : List Char → Nat × Nat → Nat × Nat
  | [], acc => acc
  | c :: cs, (l, col) =>
    if c = '\n' then lineCharAux cs (l + 1, 0) else lineCharAux cs (l, col + 1)

/-- Model of `sourceFile.getLineAndCharacterOfPosition`: the zero-based
line and zero-based character of a character offset into the text. -/
def getLineAndCharacterOfPosition (text : String) (pos : Nat) : Nat × Nat :=
  lineCharAux (text.toList.take pos) (0, 0)

/-- The `{file, line, column}` record handed to rollup. -/
structure Loc where
  file : String
  line : Nat
  column : Nat
deriving DecidableEq, Repr

/-! ## The diagnostic reporter (`printDiagnostics`)

`printDiagnostics(diagnostics, context?)` has two branches.  With a live
rollup context it forwards each diagnostic to `context.error` /
`context.warn` by category; without one it throws a structured failure
object.  The two branches are modelled by two functions. -/

/-- JS truthiness of `diagnostic.start` (`undefined` and `0` are falsy). -/
def startTruthy (d : Diagnostic) : Bool :=
  match d.start with
  | some (_ + 1) => true
  | _ => false

/-- The `loc` computed for one diagnostic: present exactly when the
diagnostic has a source file and a truthy start offset, carrying the file
name, the 1-based line and the 0-based column of the offset. -/
def diagLoc (d : Diagnostic) : Option Loc :=
  match d.file, d.start with
  | some f, some (n + 1) =>
    let lc := getLineAndCharacterOfPosition f.text (n + 1)
    some ⟨f.fileName, lc.1 + 1, lc.2⟩
  | _, _ => none

/-- Modelled from the spec: `getCodeFrame` from `src/utils`, which is
absent from the repository snapshot.  Per the spec it is "a short excerpt
of the offending source line(s) centered on the location": modelled as
the 1-based `line` of the text with a caret marker under the 0-based
`column`. -/
def getCodeFrame (text : String) (line column : Nat) : String :=
  let ls := strSplit '\n' text
  (ls.getD (line - 1) "") ++ "\n" ++ String.mk (List.replicate column ' ') ++ "^"

/-- The structured failure object `{message, id, loc, frame}` thrown by
the sink-less branch of `printDiagnostics`. -/
structure ThrownFailure where
  message : String
  id : Option String
  loc : Option Loc
  frame : Option String
deriving DecidableEq, Repr

/-- The failure object built from one diagnostic. -/
def thrownOf (d : Diagnostic) : ThrownFailure :=
  let message := flattenMessageText d.messageText
  let id := d.file.map SourceFile.fileName
  let loc := diagLoc d
  let frame :=
    match d.file, loc with
    | some f, some l => some (getCodeFrame f.text l.line l.column)
    | _, _ => none
  ⟨message, id, loc, frame⟩

/-- The context-absent branch of `printDiagnostics`: the loop throws a
structured failure at its first diagnostic (a `throw` exits the loop), so
the call either returns normally (empty sequence) or throws `thrownOf`
of the head; later diagnostics are never reached. -/
def printDiagnostics : List Diagnostic → Option ThrownFailure
  | [] => none
  | d :: _ => some (thrownOf d)

/-- One call made on the live rollup context. -/
inductive SinkCall where
  | error (message : String) (loc : Option Loc)
  | warn (message : String) (loc : Option Loc)
deriving DecidableEq, Repr

/-- The context-present branch of `printDiagnostics`: the calls made on
the rollup context, in order, assuming each call returns.  (Rollup's
`context.error` in fact aborts the surrounding transform; `transform`
models that abort itself.) -/
def printDiagnosticsWith : List Diagnostic → List SinkCall
  | [] => []
  | d :: rest =>
    match d.category with
    | .Error => .error (flattenMessageText d.messageText) (diagLoc d) :: printDiagnosticsWith rest
    | .Warning => .warn (flattenMessageText d.messageText) (diagLoc d) :: printDiagnosticsWith rest
    | _ => printDiagnosticsWith rest

/-! ## Compiler options and the config resolver (`getCompilerOptions`) -/

/-- `ts.ModuleKind`, restricted to the members the plugin mentions. -/
inductive ModuleKind where
  | ES2015
  | ES2022
deriving DecidableEq, Repr

/-- `ts.ModuleResolutionKind`, restricted to the members the plugin
mentions. -/
inductive ModuleResolutionKind where
  | NodeJs
  | Bundler
deriving DecidableEq, Repr

/-- A compiler option value. -/
inductive OptValue where
  | bool (b : Bool)
  | str (s : String)
  | num (n : Nat)
  | moduleKind (k : ModuleKind)
  | moduleResolution (k : ModuleResolutionKind)
deriving DecidableEq, Repr

/-- `ts.CompilerOptions`: a mapping of option names to values. -/
def CompilerOpts := String → Option OptValue

/-- The empty option mapping (`{} as ts.CompilerOptions`). -/
def emptyOpts : CompilerOpts := fun _ => none

/-- `Object.assign(target, source)`: `source` wins on key collision,
other keys of `target` survive. -/
def objectAssign (target source : CompilerOpts) : CompilerOpts := fun k =>
  match source k with
  | some v => some v
  | none => target k

/-- The frozen module-level `compilerOptions` overlay.  Values follow the
newest generation (src/unnamed/part_000): `moduleResolution` is the
bundler-style kind there, while `src/index.ts` pins `NodeJs`; the spec
designates the bundler-style value as canonical. -/
def compilerOptions : CompilerOpts := fun k =>
  if k = "importHelpers" then some (.bool true)
  else if k = "sourceMap" then some (.bool true)
  else if k = "module" then some (.moduleKind .ES2022)
  else if k = "moduleResolution" then some (.moduleResolution .Bundler)
  else none

/-- An opaque JSON value handed to the external converter. -/
structure RawCompilerOptions where
  json : String
deriving DecidableEq, Repr

/-- The plugin's own options object. -/
structure PluginOptions where
  compilerOptions : Option RawCompilerOptions
deriving DecidableEq, Repr

/-- The opaque `result.config` value of `ts.parseConfigFileTextToJson`. -/
def ConfigJson := String

/-- The `{options, errors}` pair produced by the external option
parsers. -/
structure ParsedCommandLine where
  options : CompilerOpts
  errors : List Diagnostic

/-- Outcome of `fs.readFile(configFilename)`. -/
inductive ReadFileResult where
  | ok (text : String)
  | enoent
  | fail (message : String)

/-- The external calls `getCompilerOptions` makes, as one environment. -/
structure ConfigEnv where
  readFile : ReadFileResult
  parseConfigFileTextToJson : String → Except Diagnostic ConfigJson
  parseJsonConfigFileContent : ConfigJson → ParsedCommandLine
  convertCompilerOptionsFromJson : RawCompilerOptions → ParsedCommandLine

/-- `options && options.compilerOptions` (both truthy). -/
def explicitRaw : Option PluginOptions → Option RawCompilerOptions
  | some o => o.compilerOptions
  | none => none

/-- The branch of `getCompilerOptions` that produces the `parsed`
value: explicit plugin options go through the JSON converter; otherwise
the config file is read (`ENOENT`, like an empty file text, leaves the
default `{options: {}, errors: []}`; any other read failure throws one
synthesized Error diagnostic), parsed to JSON (a parse error throws that
diagnostic alone) and resolved to options plus config diagnostics. -/
def parsedStep (env : ConfigEnv) (options : Option PluginOptions) :
    Except (List Diagnostic) ParsedCommandLine :=
  match explicitRaw options with
  | some raw => .ok (env.convertCompilerOptionsFromJson raw)
  | none =>
    match env.readFile with
    | .fail msg => .error [{ messageText := .str msg, category := .Error }]
    | .enoent => .ok ⟨emptyOpts, []⟩
    | .ok text =>
      if text = "" then .ok ⟨emptyOpts, []⟩
      else
        match env.parseConfigFileTextToJson text with
        | .error e => .error [e]
        | .ok config => .ok (env.parseJsonConfigFileContent config)

/-- `getCompilerOptions` of src/index.ts and src/unnamed/part_000: any
accumulated diagnostics are thrown as a sequence; on success the frozen
overlay is assigned over the parsed options. -/
def getCompilerOptions (env : ConfigEnv) (options : Option PluginOptions) :
    Except (List Diagnostic) CompilerOpts :=
  match parsedStep env options with
  | .error l => .error l
  | .ok parsed =>
    if parsed.errors.isEmpty then .ok (objectAssign parsed.options compilerOptions)
    else .error parsed.errors

/-! ## The module resolver, extension-preserving generation (src/index.ts)

`fs.access` is modelled as a predicate `fsAccess : String → Bool` saying
which absolute paths exist on disk. -/

/-- The recognized source extensions of src/index.ts, in preference
order. -/
def extensions : List String := [".ts", ".tsx"]

/-- `isTsFile` of src/index.ts. -/
def isTsFile (filename : String) : Bool :=
  extensions.contains (extname filename)

/-- The `for (const ext of ...)` loop of `resolve` in src/index.ts, over
the remaining extensions: append the extension to the specifier, resolve
against the importer's directory, return the first candidate that
exists. -/
def resolveLoop (fsAccess : String → Bool) (importee importer : String) :
    List String → Option String
  | [] => none
  | ext :: rest =>
    let filename := importee ++ ext
    let id := pathResolve (dirname importer) filename
    if fsAccess id then some id else resolveLoop fsAccess importee importer rest

/-- `resolve` of src/index.ts. -/
def resolve (fsAccess : String → Bool) (importee importer : String) : Option String :=
  resolveLoop fsAccess importee importer extensions

/-- `resolveId` of src/index.ts: defer when the importee already has an
extension, the importer is absent, or the importer is not a recognized
source file; otherwise try direct candidates then the `importee/index`
fallback.  (`a || b` on the two `resolve` results: `resolve` never
returns an empty string, so JS truthiness coincides with `Option`.) -/
def resolveId (fsAccess : String → Bool) (importee : String)
    (importer : Option String) : Option String :=
  match importer with
  | none => none
  | some imp =>
    if extname importee ≠ "" then none
    else if !isTsFile imp then none
    else
      match resolve fsAccess importee imp with
      | some id => some id
      | none => resolve fsAccess (pathJoin importee "index") imp

/-! ## The module resolver, extension-remapping generation
(src/unnamed/part_000) -/

namespace Remap

/-- The recognized source extensions of the newest generation. -/
def tsExtensions : List String := [".ts", ".tsx", ".cts", ".mts"]

/-- The `jsExtensions` remap table: plain extension to paired typed
extension. -/
def jsExtensions : List (String × String) :=
  [(".js", ".ts"), (".jsx", ".tsx"), (".cjs", ".cts"), (".mjs", ".mts")]

/-- `isTsFile` of src/unnamed/part_000. -/
def isTsFile (filename : String) : Bool :=
  tsExtensions.contains (extname filename)

/-- `resolve` of src/unnamed/part_000.  The regex replacement
`importee.replace(/\.[^.]+$/, ext => jsExtensions[ext])` replaces exactly
`extname importee` whenever that extension is a key of `jsExtensions`:
such an extension is the suffix of the last path component from its last
dot and contains no further dot or separator, so the regex match is that
suffix.  It is therefore modelled by dropping the extension and appending
the paired one. -/
def resolve (fsAccess : String → Bool) (importee importer : String) : Option String :=
  let ext := extname importee
  match jsExtensions.lookup ext with
  | none => none
  | some tsExt =>
    let rewritten := importee.dropRight ext.length ++ tsExt
    let id := pathResolve (dirname importer) rewritten
    if fsAccess id then some id else none

/-- `resolveId` of src/unnamed/part_000: defer unless the importer is a
recognized source file, then delegate to `resolve`. -/
def resolveId (fsAccess : String → Bool) (importee : String)
    (importer : Option String) : Option String :=
  match importer with
  | none => none
  | some imp =>
    if !isTsFile imp then none else resolve fsAccess importee imp

end Remap

/-! ## The `options` hook and the per-build transform state -/

/-- Rollup's `inputOptions.input`: absent, one path, a sequence of paths,
or a mapping of output names to paths. -/
inductive InputOption where
  | absent
  | str (s : String)
  | arr (xs : List String)
  | obj (entries : List (String × String))
deriving DecidableEq, Repr

/-- JS truthiness of `inputOptions.input`: `undefined` and the empty
string are falsy; arrays and objects are truthy even when empty. -/
def inputTruthy : InputOption → Bool
  | .absent => false
  | .str s => s != ""
  | .arr _ => true
  | .obj _ => true

/-- The `options` hook of src/index.ts: `if (!inputOptions.input)
return;` leaves the captured entry points untouched; otherwise the input
is normalized to a flat sequence (a string becomes a singleton, an array
is kept, `Object.values` takes a mapping's values in order) and replaces
the captured set. -/
def optionsHook (inputOptions : InputOption) (input : List String) : List String :=
  if !inputTruthy inputOptions then input
  else
    match inputOptions with
    | .absent => input
    | .str s => [s]
    | .arr xs => xs
    | .obj entries => entries.map Prod.snd

/-- `ts.createProgram(rootNames, options)`, modelled as the record of its
arguments (the program object is opaque; the plugin only queries it). -/
structure Program where
  rootNames : List String
  options : Option CompilerOpts

/-- The three memoized values closed over by one `typescript()` plugin
instance, i.e. one build. -/
structure BuildState where
  input : List String := []
  compilerOptions : Option CompilerOpts := none
  program : Option Program := none

/-- The external calls `transform` makes, as one environment. -/
structure TransformEnv where
  cfg : ConfigEnv
  pluginOptions : Option PluginOptions
  dtsFiles : List String
  getSourceFile : Program → String → Option SourceFile
  getPreEmitDiagnostics : Program → SourceFile → List Diagnostic
  transpileModule : String → Option CompilerOpts → String × Option String

/-- Outcome of one `transform` call. -/
inductive TransformResult where
  | declined
  | thrown (f : ThrownFailure)
  | aborted (message : String) (loc : Option Loc)
  | emitted (code : String) (map : Option String)
deriving DecidableEq, Repr

/-- The lazy `if (!compilerOptions) { try ... catch ... }` step of
`transform`: either updates the memoized compiler options, or yields the
failure thrown by the sink-less `printDiagnostics` call in the `catch`
handler (a throw from inside a `catch` block propagates out of the
`try`/`catch`). -/
def configStep (env : TransformEnv) (s : BuildState) :
    BuildState × Option ThrownFailure :=
  match s.compilerOptions with
  | some _ => (s, none)
  | none =>
    match getCompilerOptions env.cfg env.pluginOptions with
    | .ok opts => ({ s with compilerOptions := some opts }, none)
    | .error diags => (s, printDiagnostics diags)

/-- The lazy `if (!program)` step of `transform`: on first use, build the
program over the discovered ambient declaration files (`**/*.d.ts`
excluding `node_modules/**`) followed by the captured entry points. -/
def programStep (env : TransformEnv) (s : BuildState) : BuildState × Program :=
  match s.program with
  | some p => (s, p)
  | none =>
    let p : Program := ⟨env.dtsFiles ++ s.input, s.compilerOptions⟩
    ({ s with program := some p }, p)

/-- The `if (sourceFile) printDiagnostics(..., this)` step of
`transform`: rollup's `context.error` aborts the current file's
transform (spec section 6), so a pre-emit sequence with an
Error-category diagnostic ends the call at its first error (the
preceding warnings go to the warn channel and are not part of the
result). -/
def preEmitAbort (env : TransformEnv) (prog : Program) (id : String) :
    Option (String × Option Loc) :=
  match env.getSourceFile prog id with
  | none => none
  | some sf =>
    (env.getPreEmitDiagnostics prog sf).findSome?
      (fun d =>
        if d.category = DiagnosticCategory.Error then
          some (flattenMessageText d.messageText, diagLoc d)
        else none)

/-- The tail of `transform`: pre-emit diagnostics, then the isolated
single-file transpile.  `output.sourceMapText ?` is a JS truthiness
test, so an empty source-map text yields a `null` map. -/
def emitStep (env : TransformEnv) (prog : Program) (opts : Option CompilerOpts)
    (source id : String) : TransformResult :=
  match preEmitAbort env prog id with
  | some ml => .aborted ml.1 ml.2
  | none =>
    let output := env.transpileModule source opts
    let map :=
      match output.2 with
      | some m => if m = "" then none else some m
      | none => none
    .emitted output.1 map

/-- `transform` of src/index.ts: decline non-source files, lazily resolve
the configuration (a thrown failure propagates), lazily build the
program, then report pre-emit diagnostics and transpile. -/
def transform (env : TransformEnv) (s : BuildState) (source id : String) :
    BuildState × TransformResult :=
  if !isTsFile id then (s, .declined)
  else
    match configStep env s with
    | (s1, some f) => (s1, .thrown f)
    | (s1, none) =>
      let sp := programStep env s1
      (sp.1, emitStep env sp.2 sp.1.compilerOptions source id)

/-- `TransformResult.emitted` recognizer. -/
def TransformResult.isEmitted : TransformResult → Bool
  | .emitted _ _ => true
  | _ => false

/-- The per-diagnostic action of the context-present branch of
`printDiagnostics`: an Error goes to the error channel, a Warning to the
warn channel, anything else is ignored. -/
def sinkCallOf (d : Diagnostic) : Option SinkCall :=
  match d.category with
  | .Error => some (.error (flattenMessageText d.messageText) (diagLoc d))
  | .Warning => some (.warn (flattenMessageText d.messageText) (diagLoc d))
  | _ => none

/-- Projection of a sink call on the error channel. -/
def errChannel : SinkCall → Option (String × Option Loc)
  | .error m l => some (m, l)
  | _ => none

/-- Projection of a sink call on the warn channel. -/
def warnChannel : SinkCall → Option (String × Option Loc)
  | .warn m l => some (m, l)
  | _ => none

/-! ## Concrete fixtures used by witnesses and counterexamples -/

/-- A configuration environment with no config file on disk and quiet
external parsers. -/
def quietConfigEnv : ConfigEnv where
  readFile := .enoent
  parseConfigFileTextToJson := fun _ => .ok ""
  parseJsonConfigFileContent := fun _ => ⟨emptyOpts, []⟩
  convertCompilerOptionsFromJson := fun _ => ⟨emptyOpts, []⟩

/-- A transform environment over `quietConfigEnv` with one ambient
declaration file and a transparent transpiler. -/
def quietEnv : TransformEnv where
  cfg := quietConfigEnv
  pluginOptions := none
  dtsFiles := ["/types/global.d.ts"]
  getSourceFile := fun _ _ => none
  getPreEmitDiagnostics := fun _ _ => []
  transpileModule := fun src _ => (src, none)

/-- A configuration environment whose config-file read fails with a
non-ENOENT error. -/
def failingConfigEnv : ConfigEnv where
  readFile := .fail "EACCES: permission denied, open tsconfig.json"
  parseConfigFileTextToJson := fun _ => .ok ""
  parseJsonConfigFileContent := fun _ => ⟨emptyOpts, []⟩
  convertCompilerOptionsFromJson := fun _ => ⟨emptyOpts, []⟩

/-- A transform environment over `failingConfigEnv`. -/
def failingEnv : TransformEnv where
  cfg := failingConfigEnv
  pluginOptions := none
  dtsFiles := []
  getSourceFile := fun _ _ => none
  getPreEmitDiagnostics := fun _ _ => []
  transpileModule := fun src _ => (src, none)

/-- The minimal valid config file of the round-trip property. -/
def strictText : String :=
  "\x7b\"compilerOptions\":\x7b\"strict\":true\x7d\x7d"

/-- The options the TypeScript config parser extracts from
`strictText`. -/
def strictBase : CompilerOpts :=
  fun k => if k = "strict" then some (.bool true) else none

/-- External parser outcomes for `strictText`: the JSON parse succeeds
and config resolution yields the single option `strict: true` with no
diagnostics. -/
def strictConfigEnv : ConfigEnv where
  readFile := .ok strictText
  parseConfigFileTextToJson := fun _ => .ok strictText
  parseJsonConfigFileContent := fun _ => ⟨strictBase, []⟩
  convertCompilerOptionsFromJson := fun _ => ⟨emptyOpts, []⟩

/-- First diagnostic of a two-element sequence. -/
def diagFirst : Diagnostic :=
  { messageText := .str "first problem", category := .Error }

/-- Second diagnostic of a two-element sequence. -/
def diagSecond : Diagnostic :=
  { messageText := .str "second problem", category := .Error }

/-- A diagnostic carrying a source file and the character offset `0`. -/
def zeroStartDiag : Diagnostic :=
  { messageText := .str "cannot redeclare x", category := .Error,
    file := some ⟨"a.ts", "let x = 1;\nlet x = 2;"⟩, start := some 0 }

/-- A diagnostic carrying a source file but no start offset. -/
def noStartDiag : Diagnostic :=
  { messageText := .str "unresolved module", category := .Error,
    file := some ⟨"c.ts", "import m from \"m\";"⟩, start := none }

/-- A diagnostic with a source file and a nonzero character offset. -/
def locatedDiag : Diagnostic :=
  { messageText := .str "type mismatch", category := .Error,
    file := some ⟨"b.ts", "let a\nlet b"⟩, start := some 7 }

/-- A diagnostic with a source file and the offset `0`, used for the
start-truthiness property. -/
def zeroStartWarnDiag : Diagnostic :=
  { messageText := .str "unused variable", category := .Warning,
    file := some ⟨"d.ts", "let unused = 1;"⟩, start := some 0 }

/-! ## Rejection conditions of configuration resolution -/

/-- The config-file read failed with a non-ENOENT error (and the file
path was consulted at all, i.e. no explicit options were given). -/
def readFailsOther (env : ConfigEnv) (options : Option PluginOptions) : Prop :=
  explicitRaw options = none ∧ ∃ msg, env.readFile = .fail msg

/-- The (nonempty) config file text fails to parse as JSON. -/
def parseFails (env : ConfigEnv) (options : Option PluginOptions) : Prop :=
  explicitRaw options = none ∧
  ∃ text, env.readFile = .ok text ∧ text ≠ "" ∧
    ∃ e, env.parseConfigFileTextToJson text = .error e

/-- The diagnostics produced by whichever option-conversion / config
resolution step runs: the JSON-option converter for explicit options,
config-content resolution for a read and parsed config file, nothing
otherwise. -/
def conversionDiags (env : ConfigEnv) (options : Option PluginOptions) :
    List Diagnostic :=
  match explicitRaw options with
  | some raw => (env.convertCompilerOptionsFromJson raw).errors
  | none =>
    match env.readFile with
    | .ok text =>
      if text = "" then []
      else
        match env.parseConfigFileTextToJson text with
        | .ok config => (env.parseJsonConfigFileContent config).errors
        | .error _ => []
    | _ => []


/-! ## Helper lemmas -/

/-- The extension loop of `resolve` returns the first existing candidate
of the mapped extension list. -/
theorem resolveLoop_eq_find? (fsAccess : String → Bool)
    (importee importer : String) (exts : List String) :
    resolveLoop fsAccess importee importer exts =
      (exts.map (fun ext => pathResolve (dirname importer) (importee ++ ext))).find?
        fsAccess := by
  induction exts with
  | nil => rfl
  | cons ext rest ih =>
    by_cases h : fsAccess (pathResolve (dirname importer) (importee ++ ext))
    · simp [resolveLoop, h, List.find?_cons_of_pos]
    · simp [resolveLoop, h, List.find?_cons_of_neg, ih]

/-! ## Claims -/

/-- **C4.** In extension-preserving mode (src/index.ts), for every import
specifier lacking an extension whose importer is a recognized source
file, `resolveId` tries each recognized extension in the fixed order
`.ts` before `.tsx` appended to the specifier, resolved relative to the
importer's directory, returning the first candidate that exists on disk;
if none exists it tries the directory-index fallback
(`importee/index` plus each extension); if that also fails, or the
specifier already has an extension, or the importer is absent or not
recognized, it returns `undefined` (`none`), never an error. -/
theorem resolveId_extension_preserving (fsAccess : String → Bool)
    (importee : String) (importer : Option String) :
    resolveId fsAccess importee importer =
      match importer with
      | none => none
      | some imp =>
        if extname importee = "" ∧ isTsFile imp = true then
          [pathResolve (dirname imp) (importee ++ ".ts"),
           pathResolve (dirname imp) (importee ++ ".tsx"),
           pathResolve (dirname imp) (pathJoin importee "index" ++ ".ts"),
           pathResolve (dirname imp) (pathJoin importee "index" ++ ".tsx")].find?
            fsAccess
        else none := by
  cases importer with
  | none => rfl
  | some imp =>
    by_cases h1 : extname importee = ""
    · by_cases h2 : isTsFile imp
      · have e1 := resolveLoop_eq_find? fsAccess importee imp extensions
        have e2 := resolveLoop_eq_find? fsAccess (pathJoin importee "index") imp extensions
        simp only [resolveId, h1, h2, if_true, if_false, resolve,
          extensions, List.map] at e1 e2 ⊢
        rw [show ([pathResolve (dirname imp) (importee ++ ".ts"),
              pathResolve (dirname imp) (importee ++ ".tsx"),
              pathResolve (dirname imp) (pathJoin importee "index" ++ ".ts"),
              pathResolve (dirname imp) (pathJoin importee "index" ++ ".tsx")] :
            List String) =
          [pathResolve (dirname imp) (importee ++ ".ts"),
           pathResolve (dirname imp) (importee ++ ".tsx")] ++
          [pathResolve (dirname imp) (pathJoin importee "index" ++ ".ts"),
           pathResolve (dirname imp) (pathJoin importee "index" ++ ".tsx")] from rfl,
          List.find?_append]
        rw [e1, e2]
        cases ([pathResolve (dirname imp) (importee ++ ".ts"),
            pathResolve (dirname imp) (importee ++ ".tsx")].find? fsAccess) <;>
          simp [Option.or]
      · simp [resolveId, h1, h2]
    · simp [resolveId, h1]

/-- **C5.** In extension-remapping mode (src/unnamed/part_000), for every
importee whose extension is one of the four plain extensions and whose
importer is a recognized source file, `resolveId` substitutes exactly the
paired typed extension of the `jsExtensions` table, resolves the
rewritten path relative to the importer's directory, and returns it only
if it exists on disk; if the rewritten path does not exist, or the
extension is not in the four-entry table, or the importer is absent or
unrecognized, it returns `undefined` (`none`), never an error. -/
theorem resolveId_extension_remapping (fsAccess : String → Bool)
    (importee imp : String) :
    Remap.jsExtensions =
      [(".js", ".ts"), (".jsx", ".tsx"), (".cjs", ".cts"), (".mjs", ".mts")]
  ∧ (∀ ext tsExt, Remap.jsExtensions.lookup ext = some tsExt →
      extname importee = ext → Remap.isTsFile imp = true →
      Remap.resolveId fsAccess importee (some imp) =
        (let id := pathResolve (dirname imp) (importee.dropRight ext.length ++ tsExt)
         if fsAccess id then some id else none))
  ∧ (Remap.jsExtensions.lookup (extname importee) = none →
      Remap.resolveId fsAccess importee (some imp) = none)
  ∧ (Remap.isTsFile imp = false → Remap.resolveId fsAccess importee (some imp) = none)
  ∧ Remap.resolveId fsAccess importee none = none := by
  refine ⟨rfl, ?_, ?_, ?_, rfl⟩
  · intro ext tsExt hlookup hext hts
    simp only [Remap.resolveId, hts, Bool.not_true, Bool.false_eq_true, if_false,
      Remap.resolve, hext, hlookup]
  · intro hlookup
    by_cases hts : Remap.isTsFile imp
    · simp only [Remap.resolveId, hts, Bool.not_true, Bool.false_eq_true, if_false,
        Remap.resolve, hlookup]
    · simp [Remap.resolveId, hts]
  · intro hts
    simp [Remap.resolveId, hts]

/-- Witness for C5: `./util.js` imported from `/src/app.ts` with
`/src/util.ts` on disk resolves to `/src/util.ts`. -/
theorem resolveId_extension_remapping_witness :
    Remap.resolveId (fun p => p == "/src/util.ts") "./util.js" (some "/src/app.ts") =
      some "/src/util.ts" := by
  rw [(resolveId_extension_remapping (fun p => p == "/src/util.ts") "./util.js"
    "/src/app.ts").2.1 ".js" ".ts" rfl (by rfl) (by rfl)]
  rfl

/-- The lazy config step never touches the memoized program or the
captured entry points. -/
theorem configStep_preserves (env : TransformEnv) (s : BuildState) :
    (configStep env s).1.program = s.program ∧ (configStep env s).1.input = s.input := by
  unfold configStep
  rcases hc : s.compilerOptions with _ | o
  · rcases hg : getCompilerOptions env.cfg env.pluginOptions with l | o <;> simp
  · simp

/-- A program already memoized is served unchanged. -/
theorem programStep_some (env : TransformEnv) (s : BuildState) (p : Program)
    (h : s.program = some p) : programStep env s = (s, p) := by
  unfold programStep
  rw [h]

/-- A fresh program is built over the declaration files followed by the
entry points, with the current compiler options. -/
theorem programStep_none (env : TransformEnv) (s : BuildState)
    (h : s.program = none) :
    programStep env s =
      ({ s with program := some ⟨env.dtsFiles ++ s.input, s.compilerOptions⟩ },
       ⟨env.dtsFiles ++ s.input, s.compilerOptions⟩) := by
  unfold programStep
  rw [h]

/-- The final build state of one `transform` call. -/
theorem transform_fst (env : TransformEnv) (s : BuildState) (source id : String) :
    (transform env s source id).1 =
      if isTsFile id then
        match configStep env s with
        | (s1, some _) => s1
        | (s1, none) => (programStep env s1).1
      else s := by
  unfold transform
  by_cases ht : isTsFile id
  · rcases hcs : configStep env s with ⟨s1, f⟩
    cases f <;> simp [ht, hcs]
  · simp [ht]

/-- **C1.** For every build, the whole-program compilation context is
constructed at most once: a transform that finds it set leaves that same
program in place, and the first transform that finds it unset (a
recognized source file whose lazy configuration step did not throw)
builds it over the discovered ambient-declaration files followed, in
that order, by the captured entry-point sequence. -/
theorem transform_program_built_once (env : TransformEnv) (s : BuildState)
    (source id : String) :
    (∀ p, s.program = some p → (transform env s source id).1.program = some p)
  ∧ (s.program = none → isTsFile id = true → (configStep env s).2 = none →
      (transform env s source id).1.program =
        some ⟨env.dtsFiles ++ s.input, (configStep env s).1.compilerOptions⟩) := by
  constructor
  · intro p hp
    rw [transform_fst]
    by_cases ht : isTsFile id
    · rw [if_pos ht]
      rcases hcs : configStep env s with ⟨s1, f⟩
      have hs1 : s1.program = some p := by
        have := (configStep_preserves env s).1
        rw [hcs] at this
        rw [this, hp]
      cases f with
      | none =>
        dsimp only
        rw [programStep_some env s1 p hs1]
        exact hs1
      | some f => exact hs1
    · rw [if_neg ht]
      exact hp
  · intro h0 ht hcfg
    rw [transform_fst, if_pos ht]
    rcases hcs : configStep env s with ⟨s1, f⟩
    have hf : f = none := by
      have : (configStep env s).2 = f := by rw [hcs]
      rw [hcfg] at this
      exact this.symm
    subst hf
    have hprog : s1.program = none := by
      have := (configStep_preserves env s).1
      rw [hcs] at this
      rw [this, h0]
    have hinput : s1.input = s.input := by
      have := (configStep_preserves env s).2
      rw [hcs] at this
      exact this
    have hopts : s1.compilerOptions = (configStep env s).1.compilerOptions := by
      rw [hcs]
    dsimp only
    rw [programStep_none env s1 hprog]
    simp [hinput, hopts, hcs]

/-- Witness for C1: with no config file on disk, one declaration file
and entry point `/src/main.ts`, the first transform builds the program
over `["/types/global.d.ts", "/src/main.ts"]`. -/
theorem transform_program_built_once_witness :
    (transform quietEnv ⟨["/src/main.ts"], none, none⟩ "let x = 1" "/src/main.ts").1.program =
      some ⟨["/types/global.d.ts", "/src/main.ts"],
            some (objectAssign emptyOpts compilerOptions)⟩ := by
  have h := (transform_program_built_once quietEnv ⟨["/src/main.ts"], none, none⟩
    "let x = 1" "/src/main.ts").2 rfl (by rfl) (by rfl)
  exact h.trans (by rfl)

/-- **C6 (amended).** When lazy configuration resolution fails during a
transform, the diagnostics are passed to the diagnostic reporter with no
live sink; the reporter throws a structured failure for the first
diagnostic, and the throw propagates out of the transform: the file is
not transpiled, no code or map is returned, and the build state is left
unchanged.  Configuration failure aborts that file's transform rather
than continuing in a degraded mode. -/
theorem transform_config_failure (env : TransformEnv) (s : BuildState)
    (source id : String) (d : Diagnostic) (rest : List Diagnostic)
    (ht : isTsFile id = true) (hc : s.compilerOptions = none)
    (hg : getCompilerOptions env.cfg env.pluginOptions = .error (d :: rest)) :
    (transform env s source id).2 = .thrown (thrownOf d)
  ∧ (transform env s source id).1 = s := by
  have hcs : configStep env s = (s, some (thrownOf d)) := by
    unfold configStep
    rw [hc, hg]
    rfl
  constructor <;> simp [transform, ht, hcs]

/-- Counterexample for C6: with a config file whose read fails with a
non-ENOENT error, the claim says the transform still returns code and a
map; in fact the call ends with the thrown structured failure of the
first (here only) diagnostic and emits nothing. -/
theorem transform_config_failure_counterexample :
    (transform failingEnv ⟨[], none, none⟩ "let x = 1" "/src/main.ts").2 =
      .thrown ⟨"EACCES: permission denied, open tsconfig.json", none, none, none⟩
  ∧ ((transform failingEnv ⟨[], none, none⟩ "let x = 1" "/src/main.ts").2.isEmitted) =
      false := by
  constructor <;> rfl

/-- Witness for C6 (amended): the concrete failing environment
instantiates the theorem. -/
theorem transform_config_failure_witness :
    (transform failingEnv ⟨[], none, none⟩ "let x = 1" "/src/main.ts").1 =
      (⟨[], none, none⟩ : BuildState) :=
  (transform_config_failure failingEnv ⟨[], none, none⟩ "let x = 1" "/src/main.ts"
    { messageText := .str "EACCES: permission denied, open tsconfig.json",
      category := .Error } [] (by rfl) rfl (by rfl)).2

/-- Every successful configuration resolution is some base with the
frozen overlay assigned on top. -/
theorem getCompilerOptions_ok_assign (env : ConfigEnv) (options : Option PluginOptions)
    (opts : CompilerOpts) (h : getCompilerOptions env options = .ok opts) :
    ∃ base, opts = objectAssign base compilerOptions := by
  unfold getCompilerOptions at h
  rcases hp : parsedStep env options with l | parsed
  · rw [hp] at h
    exact Except.noConfusion h
  · rw [hp] at h
    dsimp only at h
    by_cases he : parsed.errors.isEmpty
    · rw [if_pos he] at h
      injection h with h'
      exact ⟨parsed.options, h'.symm⟩
    · rw [if_neg he] at h
      exact Except.noConfusion h

/-- **C2.** Every successfully resolved configuration contains the fixed
overlay values (importHelpers on, sourceMap on, the modern ES module
kind, the bundler-style resolution kind) and the overlay wins on any key
collision; in particular the config file
`{"compilerOptions":{"strict":true}}` resolves to a configuration with
`strict: true` plus all overlay keys at their fixed values. -/
theorem getCompilerOptions_overlay_round_trip :
    (∀ env options opts, getCompilerOptions env options = .ok opts →
        (∀ k v, compilerOptions k = some v → opts k = some v)
      ∧ opts "importHelpers" = some (.bool true)
      ∧ opts "sourceMap" = some (.bool true)
      ∧ opts "module" = some (.moduleKind .ES2022)
      ∧ opts "moduleResolution" = some (.moduleResolution .Bundler))
  ∧ getCompilerOptions strictConfigEnv none =
      .ok (objectAssign strictBase compilerOptions)
  ∧ objectAssign strictBase compilerOptions "strict" = some (.bool true)
  ∧ objectAssign strictBase compilerOptions "importHelpers" = some (.bool true)
  ∧ objectAssign strictBase compilerOptions "sourceMap" = some (.bool true)
  ∧ objectAssign strictBase compilerOptions "module" = some (.moduleKind .ES2022)
  ∧ objectAssign strictBase compilerOptions "moduleResolution" =
      some (.moduleResolution .Bundler) := by
  refine ⟨?_, by rfl, by rfl, by rfl, by rfl, by rfl, by rfl⟩
  intro env options opts h
  obtain ⟨base, rfl⟩ := getCompilerOptions_ok_assign env options opts h
  refine ⟨fun k v hk => ?_, by rfl, by rfl, by rfl, by rfl⟩
  simp [objectAssign, hk]

/-- Witness for C2: the round-trip configuration carries the overlay's
`importHelpers` value. -/
theorem getCompilerOptions_overlay_round_trip_witness :
    objectAssign strictBase compilerOptions "importHelpers" =
      some (OptValue.bool true) :=
  (getCompilerOptions_overlay_round_trip.1 strictConfigEnv none
    (objectAssign strictBase compilerOptions) rfl).2.1

/-- **C3.** Configuration resolution rejects exactly when the config-file
read fails with a non-ENOENT error, the (nonempty) config text fails to
parse as JSON, or option conversion / config resolution produces at
least one diagnostic; a rejection always carries a non-empty sequence of
diagnostics (by type never a scalar error); and a missing config file
(ENOENT) is no error: resolution succeeds with the empty base
configuration carrying only the overlay keys. -/
theorem getCompilerOptions_rejection (env : ConfigEnv) (options : Option PluginOptions) :
    ((∃ l, getCompilerOptions env options = .error l) ↔
        readFailsOther env options ∨ parseFails env options ∨
          conversionDiags env options ≠ [])
  ∧ (∀ l, getCompilerOptions env options = .error l → l ≠ [])
  ∧ (explicitRaw options = none → env.readFile = .enoent →
      getCompilerOptions env options = .ok (objectAssign emptyOpts compilerOptions)) := by
  rcases he : explicitRaw options with _ | raw
  · rcases hr : env.readFile with text | _ | msg
    · by_cases htext : text = ""
      · subst htext
        simp [getCompilerOptions, parsedStep, he, hr, readFailsOther, parseFails,
          conversionDiags]
      · rcases hparse : env.parseConfigFileTextToJson text with e | config
        · simp [getCompilerOptions, parsedStep, he, hr, htext, hparse,
            readFailsOther, parseFails, conversionDiags]
        · by_cases hemp : (env.parseJsonConfigFileContent config).errors.isEmpty
          · simp [getCompilerOptions, parsedStep, he, hr, htext, hparse, hemp,
              readFailsOther, parseFails, conversionDiags,
              List.isEmpty_iff.mp hemp]
          · have hne : (env.parseJsonConfigFileContent config).errors ≠ [] :=
              fun hnil => hemp (List.isEmpty_iff.mpr hnil)
            simp [getCompilerOptions, parsedStep, he, hr, htext, hparse, hemp,
              readFailsOther, parseFails, conversionDiags, hne]
    · simp [getCompilerOptions, parsedStep, he, hr, readFailsOther, parseFails,
        conversionDiags]
    · simp [getCompilerOptions, parsedStep, he, hr, readFailsOther, parseFails,
        conversionDiags]
  · by_cases hemp : (env.convertCompilerOptionsFromJson raw).errors.isEmpty
    · simp [getCompilerOptions, parsedStep, he, readFailsOther, parseFails,
        conversionDiags, List.isEmpty_iff.mp hemp, hemp]
    · have hne : (env.convertCompilerOptionsFromJson raw).errors ≠ [] :=
        fun hnil => hemp (List.isEmpty_iff.mpr hnil)
      simp [getCompilerOptions, parsedStep, he, readFailsOther, parseFails,
        conversionDiags, hemp, hne]

/-- Witness for C3: with no config file on disk, resolution succeeds and
yields exactly the overlay over the empty base. -/
theorem getCompilerOptions_rejection_witness :
    getCompilerOptions quietConfigEnv none =
      .ok (objectAssign emptyOpts compilerOptions) :=
  (getCompilerOptions_rejection quietConfigEnv none).2.2 rfl rfl

/-- The context-present reporter branch, one call per Error or Warning
diagnostic, in order. -/
theorem printDiagnosticsWith_eq_filterMap (diags : List Diagnostic) :
    printDiagnosticsWith diags = diags.filterMap sinkCallOf := by
  induction diags with
  | nil => rfl
  | cons d rest ih =>
    cases hc : d.category <;>
      simp [printDiagnosticsWith, sinkCallOf, hc, ih, List.filterMap_cons]

/-- The error channel receives exactly the Error-category diagnostics. -/
theorem errChannel_filterMap (diags : List Diagnostic) :
    ((diags.filterMap sinkCallOf).filterMap errChannel) =
      (diags.filter (fun x => x.category == DiagnosticCategory.Error)).map
        (fun x => (flattenMessageText x.messageText, diagLoc x)) := by
  induction diags with
  | nil => rfl
  | cons d rest ih =>
    cases hc : d.category <;>
      simp [sinkCallOf, errChannel, hc, ih, List.filterMap_cons, List.filter_cons]

/-- The warn channel receives exactly the Warning-category
diagnostics. -/
theorem warnChannel_filterMap (diags : List Diagnostic) :
    ((diags.filterMap sinkCallOf).filterMap warnChannel) =
      (diags.filter (fun x => x.category == DiagnosticCategory.Warning)).map
        (fun x => (flattenMessageText x.messageText, diagLoc x)) := by
  induction diags with
  | nil => rfl
  | cons d rest ih =>
    cases hc : d.category <;>
      simp [sinkCallOf, warnChannel, hc, ih, List.filterMap_cons, List.filter_cons]

/-- **C7 (amended).** When the diagnostic reporter is invoked without a
live sink on a non-empty sequence, the first diagnostic is thrown as a
structured failure object carrying the flattened message, the file id,
the location, and — when a file and location exist — a human-readable
code frame; later diagnostics are not reached.  When a live sink is
present, Error-category diagnostics go to the sink's error channel,
Warning-category diagnostics to its warning channel, and all other
categories are ignored. -/
theorem printDiagnostics_reporting (d : Diagnostic) (rest diags : List Diagnostic) :
    printDiagnostics [] = none
  ∧ printDiagnostics (d :: rest) = some (thrownOf d)
  ∧ (thrownOf d).message = flattenMessageText d.messageText
  ∧ (thrownOf d).id = d.file.map SourceFile.fileName
  ∧ (thrownOf d).loc = diagLoc d
  ∧ (thrownOf d).frame =
      (match d.file, diagLoc d with
       | some f, some l => some (getCodeFrame f.text l.line l.column)
       | _, _ => none)
  ∧ (printDiagnosticsWith diags).filterMap errChannel =
      (diags.filter (fun x => x.category == DiagnosticCategory.Error)).map
        (fun x => (flattenMessageText x.messageText, diagLoc x))
  ∧ (printDiagnosticsWith diags).filterMap warnChannel =
      (diags.filter (fun x => x.category == DiagnosticCategory.Warning)).map
        (fun x => (flattenMessageText x.messageText, diagLoc x))
  ∧ ((∀ x ∈ diags, x.category = DiagnosticCategory.Suggestion ∨
        x.category = DiagnosticCategory.Message) →
      printDiagnosticsWith diags = []) := by
  refine ⟨rfl, rfl, rfl, rfl, rfl, rfl, ?_, ?_, ?_⟩
  · rw [printDiagnosticsWith_eq_filterMap]
    exact errChannel_filterMap diags
  · rw [printDiagnosticsWith_eq_filterMap]
    exact warnChannel_filterMap diags
  · intro hall
    rw [printDiagnosticsWith_eq_filterMap]
    rw [List.filterMap_eq_nil_iff]
    intro x hx
    rcases hall x hx with hc | hc <;> simp [sinkCallOf, hc]

/-- Witness for C7 (amended): a sequence of one Suggestion and one
Message diagnostic produces no sink call. -/
theorem printDiagnostics_reporting_witness :
    printDiagnosticsWith
      [{ messageText := .str "could be const", category := .Suggestion },
       { messageText := .str "info", category := .Message }] = [] :=
  (printDiagnostics_reporting
      { messageText := .str "could be const", category := .Suggestion } []
      [{ messageText := .str "could be const", category := .Suggestion },
       { messageText := .str "info", category := .Message }]).2.2.2.2.2.2.2.2
    (by decide)

/-- Counterexample for C7: the claim says each diagnostic of the
sequence is thrown, but the loop's throw exits at the first diagnostic:
on a two-element sequence the single thrown failure is the first
diagnostic's, and no failure for the second is ever produced. -/
theorem printDiagnostics_counterexample :
    printDiagnostics [diagFirst, diagSecond] = some (thrownOf diagFirst)
  ∧ thrownOf diagFirst ≠ thrownOf diagSecond := ⟨rfl, by decide⟩

/-- `takeWhile` passes over a prefix wholly satisfying the predicate. -/
theorem takeWhile_append_all {α : Type} (p : α → Bool) (l₁ l₂ : List α)
    (h : l₁.all p) : (l₁ ++ l₂).takeWhile p = l₁ ++ l₂.takeWhile p := by
  induction l₁ with
  | nil => rfl
  | cons a l ih =>
    simp only [List.all_cons, Bool.and_eq_true] at h
    simp [List.takeWhile_cons, h.1, ih h.2]

/-- `takeWhile` never reaches the second part when the first already
fails the predicate somewhere. -/
theorem takeWhile_append_not_all {α : Type} (p : α → Bool) (l₁ l₂ : List α)
    (h : ¬ l₁.all p) : (l₁ ++ l₂).takeWhile p = l₁.takeWhile p := by
  induction l₁ with
  | nil => simp [List.all_nil] at h
  | cons a l ih =>
    by_cases ha : p a
    · simp only [List.all_cons, ha, Bool.true_and] at h
      simp [List.takeWhile_cons, ha, ih h]
    · simp [List.takeWhile_cons, ha]

/-- A list wholly satisfying the predicate is its own `takeWhile`. -/
theorem takeWhile_of_all {α : Type} (p : α → Bool) (l : List α)
    (h : l.all p) : l.takeWhile p = l := by
  induction l with
  | nil => rfl
  | cons a l ih =>
    simp only [List.all_cons, Bool.and_eq_true] at h
    simp [List.takeWhile_cons, h.1, ih h.2]

/-- The line/character pass: the line grows by the number of newlines
seen; the column is the distance to the last newline, or the carried
column plus the prefix length if no newline occurs. -/
theorem lineCharAux_spec (cs : List Char) (l c : Nat) :
    lineCharAux cs (l, c) =
      (l + cs.count '\n',
       if '\n' ∈ cs then (cs.reverse.takeWhile (fun x => x != '\n')).length
       else c + cs.length) := by
  induction cs generalizing l c with
  | nil => simp [lineCharAux]
  | cons a cs ih =>
    by_cases ha : a = '\n'
    · subst ha
      rw [show lineCharAux ('\n' :: cs) (l, c) = lineCharAux cs (l + 1, 0) from by
        simp [lineCharAux]]
      rw [ih]
      by_cases hm : '\n' ∈ cs
      · have hnotall : ¬ cs.reverse.all (fun x => x != '\n') := by
          simp only [List.all_eq_true, not_forall]
          exact ⟨'\n', by simp [List.mem_reverse, hm]⟩
        simp [hm, List.count_cons, List.reverse_cons,
          takeWhile_append_not_all _ _ _ hnotall]
        omega
      · have hall : cs.reverse.all (fun x => x != '\n') := by
          simp only [List.all_eq_true, List.mem_reverse]
          intro x hx
          simp only [bne_iff_ne, ne_eq]
          exact fun hxn => hm (hxn ▸ hx)
        simp [hm, List.count_cons, List.count_eq_zero_of_not_mem hm,
          List.reverse_cons, takeWhile_append_all _ _ _ hall, List.takeWhile_cons]
    · rw [show lineCharAux (a :: cs) (l, c) = lineCharAux cs (l, c + 1) from by
        simp [lineCharAux, ha]]
      rw [ih]
      have hmem : ('\n' ∈ a :: cs) ↔ ('\n' ∈ cs) := by
        rw [List.mem_cons]
        exact or_iff_right fun h => ha h.symm
      by_cases hm : '\n' ∈ cs
      · have hnotall : ¬ cs.reverse.all (fun x => x != '\n') := by
          simp only [List.all_eq_true, not_forall]
          exact ⟨'\n', by simp [List.mem_reverse, hm]⟩
        simp [hm, hmem, List.count_cons, ha, List.reverse_cons,
          takeWhile_append_not_all _ _ _ hnotall]
      · simp only [hmem, hm, if_false, List.count_cons]
        simp [ha, List.length_cons]
        omega

/-- **C8 (amended).** For every diagnostic carrying a source file and a
nonzero character offset, the reporter's computed location is the source
file's name, the zero-based line of the offset plus one (1-based), and
the zero-based character within that line (0-based); a diagnostic
lacking a source file or an offset (and, per the truthiness check, one
whose offset is zero) gets no location. -/
theorem diagLoc_location (d : Diagnostic) :
    (∀ f n, d.file = some f → d.start = some n → n ≠ 0 →
        diagLoc d = some ⟨f.fileName,
          (f.text.toList.take n).count '\n' + 1,
          ((f.text.toList.take n).reverse.takeWhile (fun x => x != '\n')).length⟩)
  ∧ (d.file = none → diagLoc d = none)
  ∧ (d.start = none → diagLoc d = none) := by
  obtain ⟨mt, cat, file, start⟩ := d
  refine ⟨?_, ?_, ?_⟩
  · intro f n hf hs hn
    simp only at hf hs
    subst hf
    subst hs
    obtain ⟨m, rfl⟩ : ∃ m, n = m + 1 := ⟨n - 1, by omega⟩
    show some _ = _
    unfold getLineAndCharacterOfPosition
    rw [lineCharAux_spec]
    by_cases hm : '\n' ∈ f.text.toList.take (m + 1)
    · simp [hm]
      exact fun h => absurd hm h
    · have hall : (f.text.toList.take (m + 1)).all (fun x => x != '\n') := by
        simp only [List.all_eq_true]
        intro x hx
        simp only [bne_iff_ne, ne_eq]
        exact fun hxn => hm (hxn ▸ hx)
      have hrall : (f.text.toList.take (m + 1)).reverse.all (fun x => x != '\n') := by
        simpa [List.all_reverse] using hall
      simp [hm, List.count_eq_zero_of_not_mem hm]
      intro h
      rw [show f.text.data = f.text.toList from rfl,
        takeWhile_of_all _ _ hrall, List.length_reverse, List.length_take]
      rfl
  · intro hf
    simp only at hf
    subst hf
    rfl
  · intro hs
    simp only at hs
    subst hs
    cases file <;> rfl

/-- Counterexample for C8: a diagnostic that carries both a source file
and the character offset `0` gets no location at all, where the claim
demands the location `{file := "a.ts", line := 1, column := 0}`. -/
theorem diagLoc_zero_offset_counterexample :
    zeroStartDiag.file.isSome = true
  ∧ zeroStartDiag.start = some 0
  ∧ diagLoc zeroStartDiag = none
  ∧ diagLoc zeroStartDiag ≠ some ⟨"a.ts", 1, 0⟩ :=
  ⟨rfl, rfl, rfl, by decide⟩

/-- Witness for C8 (amended): offset 7 into `"let a\nlet b"` is line 2
(1-based), column 1 (0-based). -/
theorem diagLoc_location_witness :
    diagLoc locatedDiag = some ⟨"b.ts", 2, 1⟩ := by
  have h := (diagLoc_location locatedDiag).1 ⟨"b.ts", "let a\nlet b"⟩ 7 rfl rfl
    (by decide)
  exact h.trans (by decide)

/-- **C9.** A falsy `input` (absent, or the empty string) leaves the
previously captured entry points untouched; a truthy one replaces them
with its normalization: a string becomes a one-element sequence, a
sequence is kept as is, and a mapping is replaced by its values in
order. -/
theorem options_hook_capture (prev : List String) :
    (∀ i, inputTruthy i = false → optionsHook i prev = prev)
  ∧ (∀ s, s ≠ "" → optionsHook (.str s) prev = [s])
  ∧ (∀ xs, optionsHook (.arr xs) prev = xs)
  ∧ (∀ es, optionsHook (.obj es) prev = es.map Prod.snd) := by
  refine ⟨?_, ?_, fun xs => rfl, fun es => rfl⟩
  · intro i hi
    simp [optionsHook, hi]
  · intro s hs
    have ht : inputTruthy (.str s) = true := by simp [inputTruthy, hs]
    simp [optionsHook, ht]

/-- Witness for C9: an empty-string input leaves the captured entry
points alone; a non-empty one replaces them. -/
theorem options_hook_capture_witness :
    optionsHook (InputOption.str "") ["a.ts"] = ["a.ts"]
  ∧ optionsHook (InputOption.str "b.ts") ["a.ts"] = ["b.ts"] :=
  ⟨(options_hook_capture ["a.ts"]).1 (.str "") rfl,
   (options_hook_capture ["a.ts"]).2.1 "b.ts" (by decide)⟩

/-- **C10.** A location is produced exactly when the diagnostic carries
a source file and a truthy (nonzero, present) start offset; when the
start is falsy — absent or zero — there is no location and, in the
sink-absent path, no code frame, even when a source file is present. -/
theorem diagLoc_requires_truthy_start (d : Diagnostic) :
    ((diagLoc d).isSome = (d.file.isSome && startTruthy d))
  ∧ (startTruthy d = false → diagLoc d = none ∧ (thrownOf d).frame = none) := by
  obtain ⟨mt, cat, file, start⟩ := d
  constructor
  · rcases file with _ | f <;> rcases start with _ | n
    · rfl
    · cases n <;> rfl
    · rfl
    · cases n <;> rfl
  · intro hst
    rcases file with _ | f <;> rcases start with _ | n
    · exact ⟨rfl, rfl⟩
    · cases n with
      | zero => exact ⟨rfl, rfl⟩
      | succ m => exact absurd hst (by simp [startTruthy])
    · exact ⟨rfl, rfl⟩
    · cases n with
      | zero => exact ⟨rfl, rfl⟩
      | succ m => exact absurd hst (by simp [startTruthy])

/-- Witness for C10: a Warning at offset 0 of a present source file gets
neither location nor code frame. -/
theorem diagLoc_requires_truthy_start_witness :
    diagLoc zeroStartWarnDiag = none ∧ (thrownOf zeroStartWarnDiag).frame = none :=
  (diagLoc_requires_truthy_start zeroStartWarnDiag).2 rfl
